import Mathlib

/-
Verification of the camera-and-integration core of a recursive path tracer
(src/camera.h): viewport construction, per-pixel ray sampling with defocus
blur, and the recursive ray_colour integrator. Real-valued arithmetic of the
source is modelled over the real numbers; the sources of randomness
(random_double outputs and the unit-disk sample) are passed as explicit
parameters; the scene (hittable world) and materials are modelled as
functions returning an optional hit record together with the scatter
behaviour of the material stored at the hit.
-/

namespace PathTracer

noncomputable section

open Real

/-- The 3-component real vector type (vec3 of the source); also used for
points (point3) and colours (colour). -/
structure Vec3 where
  x : ℝ
  y : ℝ
  z : ℝ

instance : Zero Vec3 := ⟨⟨0, 0, 0⟩⟩

instance : Add Vec3 := ⟨fun a b => ⟨a.x + b.x, a.y + b.y, a.z + b.z⟩⟩

instance : Neg Vec3 := ⟨fun a => ⟨-a.x, -a.y, -a.z⟩⟩

instance : Sub Vec3 := ⟨fun a b => ⟨a.x - b.x, a.y - b.y, a.z - b.z⟩⟩

/-- Componentwise product (vec3 operator*, used for colour attenuation). -/
instance : Mul Vec3 := ⟨fun a b => ⟨a.x * b.x, a.y * b.y, a.z * b.z⟩⟩

/-- Scalar multiplication (double * vec3 of the source). -/
instance : SMul ℝ Vec3 := ⟨fun t a => ⟨t * a.x, t * a.y, t * a.z⟩⟩

@[simp] theorem zero_x : (0 : Vec3).x = 0 := rfl

@[simp] theorem zero_y : (0 : Vec3).y = 0 := rfl

@[simp] theorem zero_z : (0 : Vec3).z = 0 := rfl

@[simp] theorem add_x (a b : Vec3) : (a + b).x = a.x + b.x := rfl

@[simp] theorem add_y (a b : Vec3) : (a + b).y = a.y + b.y := rfl

@[simp] theorem add_z (a b : Vec3) : (a + b).z = a.z + b.z := rfl

@[simp] theorem neg_x (a : Vec3) : (-a).x = -a.x := rfl

@[simp] theorem neg_y (a : Vec3) : (-a).y = -a.y := rfl

@[simp] theorem neg_z (a : Vec3) : (-a).z = -a.z := rfl

@[simp] theorem sub_x (a b : Vec3) : (a - b).x = a.x - b.x := rfl

@[simp] theorem sub_y (a b : Vec3) : (a - b).y = a.y - b.y := rfl

@[simp] theorem sub_z (a b : Vec3) : (a - b).z = a.z - b.z := rfl

@[simp] theorem mul_x (a b : Vec3) : (a * b).x = a.x * b.x := rfl

@[simp] theorem mul_y (a b : Vec3) : (a * b).y = a.y * b.y := rfl

@[simp] theorem mul_z (a b : Vec3) : (a * b).z = a.z * b.z := rfl

@[simp] theorem smul_x (t : ℝ) (a : Vec3) : (t • a).x = t * a.x := rfl

@[simp] theorem smul_y (t : ℝ) (a : Vec3) : (t • a).y = t * a.y := rfl

@[simp] theorem smul_z (t : ℝ) (a : Vec3) : (t • a).z = t * a.z := rfl

@[simp] theorem mk_x (a b c : ℝ) : (Vec3.mk a b c).x = a := rfl

@[simp] theorem mk_y (a b c : ℝ) : (Vec3.mk a b c).y = b := rfl

@[simp] theorem mk_z (a b c : ℝ) : (Vec3.mk a b c).z = c := rfl

theorem Vec3.ext_components {a b : Vec3} (hx : a.x = b.x) (hy : a.y = b.y)
    (hz : a.z = b.z) : a = b := by
  cases a; cases b; cases hx; cases hy; cases hz; rfl

theorem Vec3.eq_iff {a b : Vec3} :
    a = b ↔ a.x = b.x ∧ a.y = b.y ∧ a.z = b.z := by
  constructor
  · rintro rfl; exact ⟨rfl, rfl, rfl⟩
  · rintro ⟨hx, hy, hz⟩; exact Vec3.ext_components hx hy hz

/-- Dot product (vec3 dot of the source). -/
def dot (a b : Vec3) : ℝ := a.x * b.x + a.y * b.y + a.z * b.z

/-- Cross product (vec3 cross of the source). -/
def cross (a b : Vec3) : Vec3 :=
  ⟨a.y * b.z - a.z * b.y, a.z * b.x - a.x * b.z, a.x * b.y - a.y * b.x⟩

/-- vec3 length_squared. -/
def Vec3.length_squared (a : Vec3) : ℝ := a.x * a.x + a.y * a.y + a.z * a.z

/-- vec3 length = sqrt(length_squared). -/
def Vec3.length (a : Vec3) : ℝ := Real.sqrt a.length_squared

/-- unit_vector(v) = v / v.length(). -/
def unit_vector (v : Vec3) : Vec3 := (1 / v.length) • v

/-- degrees_to_radians of rtweekend.h. -/
def degrees_to_radians (degrees : ℝ) : ℝ := degrees * π / 180

/-- A ray: origin point and (unnormalized) direction vector. -/
structure Ray where
  origin : Vec3
  direction : Vec3

/-- The hit record produced by the scene query: intersection point, surface
normal, ray parameter t, and the front-face flag. The material reference is
modelled separately (see Hittable.hit). -/
structure HitRecord where
  p : Vec3
  normal : Vec3
  t : ℝ
  front_face : Bool

/-- A material is its scatter function: given the incoming ray and the hit
record it produces an attenuation colour and a scattered ray, or signals
absorption (none). -/
def Material : Type := Ray → HitRecord → Option (Vec3 × Ray)

/-- The t-interval passed to the scene query; the upper bound may be the
floating-point infinity, so both bounds live in the extended reals. -/
structure Interval where
  min : EReal
  max : EReal

/-- infinity of rtweekend.h. -/
def infinity : EReal := ⊤

/-- The scene query interface: world.hit(r, interval, rec) either fills a
hit record (paired here with the scatter function of the material stored in
rec.mat) for the nearest intersection in the interval, or reports no hit. -/
structure Hittable where
  hit : Ray → Interval → Option (HitRecord × Material)

/-- The interval the integrator queries the scene with: (0.001, +infinity). -/
def shadowAcneInterval : Interval := ⟨((0.001 : ℝ) : EReal), infinity⟩

/-- camera::ray_colour — the recursive path integrator. The depth parameter
is the C++ int bounce budget. -/
def ray_colour (world : Hittable) (r : Ray) (depth : ℤ) : Vec3 :=
  if depth ≤ 0 then ⟨0, 0, 0⟩
  else
    match world.hit r shadowAcneInterval with
    | some (rec, mat) =>
      match mat r rec with
      | some (attenuation, scattered) =>
        attenuation * ray_colour world scattered (depth - 1)
      | none => ⟨0, 0, 0⟩
    | none =>
      let unit_direction := unit_vector r.direction
      let a := 0.5 * (unit_direction.y + 1.0)
      (1.0 - a) • (⟨1.0, 1.0, 1.0⟩ : Vec3) + a • (⟨0.5, 0.7, 1.0⟩ : Vec3)
termination_by depth.toNat
decreasing_by
  omega

/-- A fuel-indexed variant of ray_colour: structural recursion on a natural
number bounce budget, so its recursion depth is bounded by the fuel. -/
def ray_colour_fuel (world : Hittable) : Ray → ℕ → Vec3
  | _, 0 => ⟨0, 0, 0⟩
  | r, n + 1 =>
    match world.hit r shadowAcneInterval with
    | some (rec, mat) =>
      match mat r rec with
      | some (attenuation, scattered) =>
        attenuation * ray_colour_fuel world scattered n
      | none => ⟨0, 0, 0⟩
    | none =>
      let unit_direction := unit_vector r.direction
      let a := 0.5 * (unit_direction.y + 1.0)
      (1.0 - a) • (⟨1.0, 1.0, 1.0⟩ : Vec3) + a • (⟨0.5, 0.7, 1.0⟩ : Vec3)

/-! ### Unfolding lemmas for the integrator -/

theorem ray_colour_of_depth_nonpos (world : Hittable) (r : Ray) (depth : ℤ)
    (h : depth ≤ 0) : ray_colour world r depth = ⟨0, 0, 0⟩ := by
  rw [ray_colour]
  simp [h]

theorem ray_colour_hit_scatter (world : Hittable) (r : Ray) (depth : ℤ)
    (rec : HitRecord) (mat : Material) (att : Vec3) (sc : Ray)
    (hd : 0 < depth)
    (hh : world.hit r shadowAcneInterval = some (rec, mat))
    (hs : mat r rec = some (att, sc)) :
    ray_colour world r depth = att * ray_colour world sc (depth - 1) := by
  rw [ray_colour]
  simp only [if_neg (not_le.mpr hd), hh, hs]

theorem ray_colour_hit_absorb (world : Hittable) (r : Ray) (depth : ℤ)
    (rec : HitRecord) (mat : Material)
    (hd : 0 < depth)
    (hh : world.hit r shadowAcneInterval = some (rec, mat))
    (hs : mat r rec = none) :
    ray_colour world r depth = ⟨0, 0, 0⟩ := by
  rw [ray_colour]
  simp only [if_neg (not_le.mpr hd), hh, hs]

theorem ray_colour_miss (world : Hittable) (r : Ray) (depth : ℤ)
    (hd : 0 < depth)
    (hm : world.hit r shadowAcneInterval = none) :
    ray_colour world r depth =
      (1.0 - 0.5 * ((unit_vector r.direction).y + 1.0)) • (⟨1.0, 1.0, 1.0⟩ : Vec3)
        + (0.5 * ((unit_vector r.direction).y + 1.0)) • (⟨0.5, 0.7, 1.0⟩ : Vec3) := by
  rw [ray_colour]
  simp only [if_neg (not_le.mpr hd), hm]

/-- ray_colour computes exactly the fuel-indexed integrator run with fuel
depth.toNat. -/
theorem ray_colour_eq_fuel_aux :
    ∀ (n : ℕ) (world : Hittable) (r : Ray) (depth : ℤ), depth.toNat = n →
      ray_colour world r depth = ray_colour_fuel world r n := by
  intro n
  induction n with
  | zero =>
    intro world r depth h
    have hd : depth ≤ 0 := by omega
    rw [ray_colour_of_depth_nonpos world r depth hd]
    rfl
  | succ n ih =>
    intro world r depth h
    have hd : 0 < depth := by omega
    rw [ray_colour]
    simp only [if_neg (not_le.mpr hd)]
    cases hh : world.hit r shadowAcneInterval with
    | none => simp [ray_colour_fuel, hh]
    | some pm =>
      obtain ⟨rec, mat⟩ := pm
      cases hs : mat r rec with
      | none => simp [ray_colour_fuel, hh, hs]
      | some asr =>
        obtain ⟨att, sc⟩ := asr
        simp only [ray_colour_fuel, hh, hs]
        rw [ih world sc (depth - 1) (by omega)]

/-- The fuel-indexed integrator only looks at the world through hit queries
at the interval (0.001, +infinity). -/
theorem ray_colour_fuel_congr :
    ∀ (n : ℕ) (w₁ w₂ : Hittable),
        (∀ r, w₁.hit r shadowAcneInterval = w₂.hit r shadowAcneInterval) →
      ∀ r, ray_colour_fuel w₁ r n = ray_colour_fuel w₂ r n := by
  intro n
  induction n with
  | zero => intro w₁ w₂ hag r; rfl
  | succ n ih =>
    intro w₁ w₂ hag r
    simp only [ray_colour_fuel]
    rw [hag r]
    cases hh : w₂.hit r shadowAcneInterval with
    | none => rfl
    | some pm =>
      obtain ⟨rec, mat⟩ := pm
      cases hs : mat r rec with
      | none => simp only [hs]
      | some asr =>
        obtain ⟨att, sc⟩ := asr
        simp only [hs]
        rw [ih w₁ w₂ hag sc]

/-! ### Concrete scenes and rays used by the witnesses -/

/-- A scene with no objects: every hit query reports a miss. -/
def emptyWorld : Hittable := ⟨fun _ _ => none⟩

/-- A ray pointing straight up. -/
def rayUp : Ray := ⟨⟨0, 0, 0⟩, ⟨0, 1, 0⟩⟩

/-- A ray pointing straight down. -/
def rayDown : Ray := ⟨⟨0, 0, 0⟩, ⟨0, -1, 0⟩⟩

/-- A fixed scattered ray for the test material. -/
def ray2 : Ray := ⟨⟨0, 0, 0⟩, ⟨1, 0, 0⟩⟩

/-- A test material that always scatters with attenuation (0.5, 0.5, 0.5). -/
def mat1 : Material := fun _ _ => some (⟨0.5, 0.5, 0.5⟩, ray2)

/-- A test material that always absorbs. -/
def matAbsorb : Material := fun _ _ => none

/-- A fixed hit record for the test scenes. -/
def rec1 : HitRecord := ⟨⟨0, 0, -1⟩, ⟨0, 0, 1⟩, 1, true⟩

/-- A test scene whose every query hits rec1 with the scattering material. -/
def world1 : Hittable := ⟨fun _ _ => some (rec1, mat1)⟩

/-- A test scene whose every query hits rec1 with the absorbing material. -/
def worldAbsorb : Hittable := ⟨fun _ _ => some (rec1, matAbsorb)⟩

open Classical in
/-- A test scene that reports a miss exactly on queries whose lower bound is
0.001 and a hit on any other query interval. -/
def pickyWorld : Hittable :=
  ⟨fun _ i => if i.min = ((0.001 : ℝ) : EReal) then none else some (rec1, mat1)⟩

/-! ### Claims about the Path Integrator -/

/-- Claim C1: for every ray the scene reports as hit and every depth > 0, if
the material scatters then the integrator returns the componentwise product
of the attenuation with the recursive integral of the scattered ray at
depth - 1; if the material absorbs it returns black. -/
theorem c1_hit_scatter_or_absorb (world : Hittable) (r : Ray) (depth : ℤ)
    (rec : HitRecord) (mat : Material)
    (hd : 0 < depth)
    (hh : world.hit r shadowAcneInterval = some (rec, mat)) :
    (∀ att sc, mat r rec = some (att, sc) →
        ray_colour world r depth = att * ray_colour world sc (depth - 1)) ∧
    (mat r rec = none → ray_colour world r depth = ⟨0, 0, 0⟩) := by
  constructor
  · intro att sc hs
    exact ray_colour_hit_scatter world r depth rec mat att sc hd hh hs
  · intro hs
    exact ray_colour_hit_absorb world r depth rec mat hd hh hs

theorem c1_hit_scatter_or_absorb_witness :
    (0 < (1 : ℤ)
      ∧ world1.hit rayUp shadowAcneInterval = some (rec1, mat1)
      ∧ mat1 rayUp rec1 = some (⟨0.5, 0.5, 0.5⟩, ray2)
      ∧ worldAbsorb.hit rayUp shadowAcneInterval = some (rec1, matAbsorb)
      ∧ matAbsorb rayUp rec1 = none)
    ∧ ray_colour world1 rayUp 1 = (⟨0.5, 0.5, 0.5⟩ : Vec3) * ray_colour world1 ray2 0
    ∧ ray_colour worldAbsorb rayUp 1 = ⟨0, 0, 0⟩ := by
  refine ⟨⟨by decide, rfl, rfl, rfl, rfl⟩, ?_, ?_⟩
  · exact (c1_hit_scatter_or_absorb world1 rayUp 1 rec1 mat1 (by decide) rfl).1
      ⟨0.5, 0.5, 0.5⟩ ray2 rfl
  · exact (c1_hit_scatter_or_absorb worldAbsorb rayUp 1 rec1 matAbsorb
      (by decide) rfl).2 rfl

/-- Claim C2: for every ray whose scene query reports no hit and every
depth > 0, the integrator returns exactly the background gradient
(1-a)·(1,1,1) + a·(0.5,0.7,1.0) with a = 0.5·(y+1), y the vertical
component of the normalized ray direction. -/
theorem c2_miss_background (world : Hittable) (r : Ray) (depth : ℤ)
    (hd : 0 < depth)
    (hm : world.hit r shadowAcneInterval = none) :
    ray_colour world r depth =
      (1.0 - 0.5 * ((unit_vector r.direction).y + 1.0)) • (⟨1.0, 1.0, 1.0⟩ : Vec3)
        + (0.5 * ((unit_vector r.direction).y + 1.0)) • (⟨0.5, 0.7, 1.0⟩ : Vec3) :=
  ray_colour_miss world r depth hd hm

theorem c2_miss_background_witness :
    (0 < (1 : ℤ) ∧ emptyWorld.hit rayUp shadowAcneInterval = none)
    ∧ ray_colour emptyWorld rayUp 1 = ⟨0.5, 0.7, 1.0⟩
    ∧ ray_colour emptyWorld rayDown 1 = ⟨1.0, 1.0, 1.0⟩ := by
  refine ⟨⟨by decide, rfl⟩, ?_, ?_⟩
  · rw [c2_miss_background emptyWorld rayUp 1 (by decide) rfl]
    simp only [rayUp, unit_vector, Vec3.length, Vec3.length_squared]
    norm_num [Real.sqrt_one, Vec3.eq_iff]
  · rw [c2_miss_background emptyWorld rayDown 1 (by decide) rfl]
    simp only [rayDown, unit_vector, Vec3.length, Vec3.length_squared]
    norm_num [Real.sqrt_one, Vec3.eq_iff]

/-- Claim C3: for every ray and scene, the integrator called with
depth ≤ 0 returns black. -/
theorem c3_depth_exhausted (world : Hittable) (r : Ray) (depth : ℤ)
    (h : depth ≤ 0) : ray_colour world r depth = ⟨0, 0, 0⟩ :=
  ray_colour_of_depth_nonpos world r depth h

theorem c3_depth_exhausted_witness :
    ((0 : ℤ) ≤ 0 ∧ ray_colour world1 rayUp 0 = ⟨0, 0, 0⟩)
    ∧ ((-3 : ℤ) ≤ 0 ∧ ray_colour emptyWorld rayDown (-3) = ⟨0, 0, 0⟩) :=
  ⟨⟨le_refl 0, c3_depth_exhausted world1 rayUp 0 (le_refl 0)⟩,
   ⟨by decide, c3_depth_exhausted emptyWorld rayDown (-3) (by decide)⟩⟩

/-- Claim C4: the integrator queries the scene only at the t-interval
(0.001, +infinity): two scenes whose hit answers agree on exactly that query
interval are indistinguishable to the integrator, for every ray and depth. -/
theorem c4_query_interval (w₁ w₂ : Hittable)
    (hag : ∀ r, w₁.hit r ⟨((0.001 : ℝ) : EReal), infinity⟩
              = w₂.hit r ⟨((0.001 : ℝ) : EReal), infinity⟩)
    (r : Ray) (depth : ℤ) :
    ray_colour w₁ r depth = ray_colour w₂ r depth := by
  rw [ray_colour_eq_fuel_aux depth.toNat w₁ r depth rfl,
      ray_colour_eq_fuel_aux depth.toNat w₂ r depth rfl]
  exact ray_colour_fuel_congr depth.toNat w₁ w₂ hag r

theorem c4_query_interval_witness :
    (∀ r, emptyWorld.hit r ⟨((0.001 : ℝ) : EReal), infinity⟩
        = pickyWorld.hit r ⟨((0.001 : ℝ) : EReal), infinity⟩)
    ∧ ray_colour emptyWorld rayUp 2 = ray_colour pickyWorld rayUp 2 := by
  have h : ∀ r, emptyWorld.hit r ⟨((0.001 : ℝ) : EReal), infinity⟩
      = pickyWorld.hit r ⟨((0.001 : ℝ) : EReal), infinity⟩ := by
    intro r
    simp [emptyWorld, pickyWorld]
  exact ⟨h, c4_query_interval emptyWorld pickyWorld h rayUp 2⟩

/-- Claim C9: the integrator terminates with recursion depth bounded by the
initial bounce budget: it coincides with the structurally fuel-bounded
integrator run on fuel depth.toNat, whose recursion depth is at most that
fuel, each recursive call decreasing the budget by one and stopping at 0. -/
theorem c9_termination (world : Hittable) (r : Ray) (depth : ℤ) :
    ray_colour world r depth = ray_colour_fuel world r depth.toNat :=
  ray_colour_eq_fuel_aux depth.toNat world r depth rfl

/-! ### The camera: configuration, derived state, viewport builder, sampler -/

/-- The public configuration fields of the camera class. -/
structure CameraCfg where
  aspect_ratio : ℝ
  image_width : ℤ
  samples_per_pixel : ℤ
  max_depth : ℤ
  vfov : ℝ
  lookfrom : Vec3
  lookat : Vec3
  vup : Vec3
  defocus_angle : ℝ
  focus_dist : ℝ

/-- The private derived state populated by camera::initialize(). -/
structure DerivedState where
  image_height : ℤ
  center : Vec3
  pixel00_loc : Vec3
  pixel_delta_u : Vec3
  pixel_delta_v : Vec3
  u : Vec3
  v : Vec3
  w : Vec3
  defocus_disk_u : Vec3
  defocus_disk_v : Vec3

/-- C++ static_cast from double to int: truncation toward zero. -/
def intTrunc (x : ℝ) : ℤ := if 0 ≤ x then ⌊x⌋ else ⌈x⌉

/-- camera::initialize() — the viewport builder. Field by field translation:
image_height is the truncated quotient clamped below by 1; center is
lookfrom; the basis w, u, v; viewport vectors and per-pixel deltas; the
upper-left pixel location; and the defocus-disk basis. -/
def initCamera (c : CameraCfg) : DerivedState :=
  let image_height0 := intTrunc ((c.image_width : ℝ) / c.aspect_ratio)
  let image_height := if image_height0 < 1 then 1 else image_height0
  let center := c.lookfrom
  let theta := degrees_to_radians c.vfov
  let h := Real.tan (theta / 2)
  let viewport_height := 2 * h * c.focus_dist
  let viewport_width :=
    viewport_height * ((c.image_width : ℝ) / (image_height : ℝ))
  let w := unit_vector (c.lookfrom - c.lookat)
  let u := unit_vector (cross c.vup w)
  let v := cross w u
  let viewport_u := viewport_width • u
  let viewport_v := viewport_height • (-v)
  let pixel_delta_u := (1 / (c.image_width : ℝ)) • viewport_u
  let pixel_delta_v := (1 / (image_height : ℝ)) • viewport_v
  let viewport_upper_left :=
    center - c.focus_dist • w - (1 / 2 : ℝ) • viewport_u - (1 / 2 : ℝ) • viewport_v
  let pixel00_loc := viewport_upper_left + (0.5 : ℝ) • (pixel_delta_u + pixel_delta_v)
  let defocus_radius :=
    c.focus_dist * Real.tan (degrees_to_radians (c.defocus_angle / 2))
  let defocus_disk_u := defocus_radius • u
  let defocus_disk_v := defocus_radius • v
  ⟨image_height, center, pixel00_loc, pixel_delta_u, pixel_delta_v,
   u, v, w, defocus_disk_u, defocus_disk_v⟩

/-- camera::pixel_sample_square: a random point in the square surrounding a
pixel, with the two random_double() draws passed in as r1, r2. -/
def pixel_sample_square (s : DerivedState) (r1 r2 : ℝ) : Vec3 :=
  let px := -0.5 + r1
  let py := -0.5 + r2
  px • s.pixel_delta_u + py • s.pixel_delta_v

/-- camera::defocus_disk_sample: a random point in the camera defocus disk,
with the random_in_unit_disk() draw passed in as p. -/
def defocus_disk_sample (s : DerivedState) (p : ℝ × ℝ) : Vec3 :=
  s.center + p.1 • s.defocus_disk_u + p.2 • s.defocus_disk_v

/-- camera::get_ray(i, j): a randomly sampled camera ray for pixel (i, j),
with the randomness draws (two random_double() outputs r1, r2 and the
unit-disk sample p) passed in explicitly. -/
def get_ray (c : CameraCfg) (s : DerivedState) (i j : ℤ) (r1 r2 : ℝ)
    (p : ℝ × ℝ) : Ray :=
  let pixel_center :=
    s.pixel00_loc + (i : ℝ) • s.pixel_delta_u + (j : ℝ) • s.pixel_delta_v
  let pixel_sample := pixel_center + pixel_sample_square s r1 r2
  let ray_origin := if c.defocus_angle ≤ 0 then s.center else defocus_disk_sample s p
  let ray_direction := pixel_sample - ray_origin
  ⟨ray_origin, ray_direction⟩

/-! ### Vector algebra facts used for the basis claims -/

theorem dot_self_nonneg (v : Vec3) : 0 ≤ dot v v := by
  unfold dot
  nlinarith [mul_self_nonneg v.x, mul_self_nonneg v.y, mul_self_nonneg v.z]

theorem dot_self_pos {v : Vec3} (h : v ≠ 0) : 0 < dot v v := by
  rcases lt_or_eq_of_le (dot_self_nonneg v) with hp | hz
  · exact hp
  · exfalso
    apply h
    have hx : v.x * v.x = 0 := by
      unfold dot at hz
      nlinarith [mul_self_nonneg v.x, mul_self_nonneg v.y, mul_self_nonneg v.z]
    have hy : v.y * v.y = 0 := by
      unfold dot at hz
      nlinarith [mul_self_nonneg v.x, mul_self_nonneg v.y, mul_self_nonneg v.z]
    have hz3 : v.z * v.z = 0 := by
      unfold dot at hz
      nlinarith [mul_self_nonneg v.x, mul_self_nonneg v.y, mul_self_nonneg v.z]
    exact Vec3.ext_components (mul_self_eq_zero.mp hx) (mul_self_eq_zero.mp hy)
      (mul_self_eq_zero.mp hz3)

theorem length_squared_eq_dot_self (v : Vec3) : v.length_squared = dot v v := rfl

theorem length_squared_nonneg (v : Vec3) : 0 ≤ v.length_squared :=
  dot_self_nonneg v

theorem length_pos {v : Vec3} (h : v ≠ 0) : 0 < v.length :=
  Real.sqrt_pos.mpr (dot_self_pos h)

theorem length_squared_smul (t : ℝ) (v : Vec3) :
    (t • v).length_squared = t ^ 2 * v.length_squared := by
  simp only [Vec3.length_squared, smul_x, smul_y, smul_z]
  ring

theorem length_unit_vector {v : Vec3} (h : v ≠ 0) : (unit_vector v).length = 1 := by
  have hls : 0 < v.length_squared := dot_self_pos h
  have hlen : 0 < v.length := length_pos h
  rw [unit_vector, Vec3.length, length_squared_smul,
    Real.sqrt_mul (sq_nonneg _), Real.sqrt_sq (by positivity : (0:ℝ) ≤ 1 / v.length)]
  have hsq : Real.sqrt v.length_squared = v.length := rfl
  rw [hsq]
  field_simp

theorem length_squared_of_length_eq_one {v : Vec3} (h : v.length = 1) :
    v.length_squared = 1 := by
  have := h
  rw [Vec3.length] at this
  nlinarith [Real.sq_sqrt (length_squared_nonneg v)]

theorem dot_comm (a b : Vec3) : dot a b = dot b a := by
  unfold dot; ring

theorem dot_cross_left (a b : Vec3) : dot (cross a b) a = 0 := by
  simp only [dot, cross, mk_x, mk_y, mk_z]
  ring

theorem dot_cross_right (a b : Vec3) : dot (cross a b) b = 0 := by
  simp only [dot, cross, mk_x, mk_y, mk_z]
  ring

theorem cross_length_squared (a b : Vec3) :
    (cross a b).length_squared =
      a.length_squared * b.length_squared - (dot a b) ^ 2 := by
  simp only [Vec3.length_squared, dot, cross, mk_x, mk_y, mk_z]
  ring

theorem dot_smul_left (t : ℝ) (a b : Vec3) : dot (t • a) b = t * dot a b := by
  simp only [dot, smul_x, smul_y, smul_z]
  ring

theorem cross_smul_right (a : Vec3) (t : ℝ) (b : Vec3) :
    cross a (t • b) = t • cross a b := by
  refine Vec3.ext_components ?_ ?_ ?_ <;>
    simp only [cross, smul_x, smul_y, smul_z, mk_x, mk_y, mk_z] <;> ring

theorem cross_zero_right (a : Vec3) : cross a 0 = 0 := by
  refine Vec3.ext_components ?_ ?_ ?_ <;>
    simp [cross]

theorem smul_eq_zero_iff_vec {t : ℝ} (v : Vec3) (ht : t ≠ 0) :
    t • v = 0 ↔ v = 0 := by
  simp only [Vec3.eq_iff, smul_x, smul_y, smul_z, zero_x, zero_y, zero_z]
  constructor
  · rintro ⟨hx, hy, hz⟩
    exact ⟨by rcases mul_eq_zero.mp hx with h | h; exact absurd h ht; exact h,
           by rcases mul_eq_zero.mp hy with h | h; exact absurd h ht; exact h,
           by rcases mul_eq_zero.mp hz with h | h; exact absurd h ht; exact h⟩
  · rintro ⟨hx, hy, hz⟩
    exact ⟨by rw [hx]; ring, by rw [hy]; ring, by rw [hz]; ring⟩

/-! ### Projection lemmas for the viewport builder -/

theorem initCamera_w (c : CameraCfg) :
    (initCamera c).w = unit_vector (c.lookfrom - c.lookat) := rfl

theorem initCamera_u (c : CameraCfg) :
    (initCamera c).u = unit_vector (cross c.vup (initCamera c).w) := rfl

theorem initCamera_v (c : CameraCfg) :
    (initCamera c).v = cross (initCamera c).w (initCamera c).u := rfl

theorem initCamera_center (c : CameraCfg) :
    (initCamera c).center = c.lookfrom := rfl

theorem initCamera_image_height (c : CameraCfg) :
    (initCamera c).image_height =
      (if intTrunc ((c.image_width : ℝ) / c.aspect_ratio) < 1 then 1
       else intTrunc ((c.image_width : ℝ) / c.aspect_ratio)) := rfl

/-! ### Claims about the viewport builder -/

/-- Claim C5: for every configuration whose up vector is not parallel to
lookfrom - lookat, the viewport builder computes w = normalize(lookfrom -
lookat), u = normalize(vup x w), v = w x u, and the resulting u, v, w are
mutually orthogonal unit vectors. -/
theorem c5_orthonormal_basis (c : CameraCfg)
    (h : cross c.vup (c.lookfrom - c.lookat) ≠ 0) :
    ((initCamera c).w = unit_vector (c.lookfrom - c.lookat)
      ∧ (initCamera c).u = unit_vector (cross c.vup (initCamera c).w)
      ∧ (initCamera c).v = cross (initCamera c).w (initCamera c).u)
    ∧ ((initCamera c).u.length = 1 ∧ (initCamera c).v.length = 1
      ∧ (initCamera c).w.length = 1)
    ∧ (dot (initCamera c).u (initCamera c).v = 0
      ∧ dot (initCamera c).u (initCamera c).w = 0
      ∧ dot (initCamera c).v (initCamera c).w = 0) := by
  have hd : c.lookfrom - c.lookat ≠ 0 := by
    intro h0
    apply h
    rw [h0, cross_zero_right]
  have hw : (initCamera c).w = unit_vector (c.lookfrom - c.lookat) := initCamera_w c
  have hwlen : (initCamera c).w.length = 1 := by
    rw [hw]; exact length_unit_vector hd
  have hlpos : 0 < (c.lookfrom - c.lookat).length := length_pos hd
  have hcw : cross c.vup (initCamera c).w
      = (1 / (c.lookfrom - c.lookat).length) • cross c.vup (c.lookfrom - c.lookat) := by
    rw [hw, unit_vector, cross_smul_right]
  have hcwne : cross c.vup (initCamera c).w ≠ 0 := by
    rw [hcw]
    intro h0
    exact h ((smul_eq_zero_iff_vec _ (by positivity)).mp h0)
  have hu : (initCamera c).u = unit_vector (cross c.vup (initCamera c).w) :=
    initCamera_u c
  have hulen : (initCamera c).u.length = 1 := by
    rw [hu]; exact length_unit_vector hcwne
  have huw : dot (initCamera c).u (initCamera c).w = 0 := by
    rw [hu, unit_vector, dot_smul_left, dot_cross_right]
    ring
  have hv : (initCamera c).v = cross (initCamera c).w (initCamera c).u :=
    initCamera_v c
  have hvw : dot (initCamera c).v (initCamera c).w = 0 := by
    rw [hv]
    exact dot_cross_left _ _
  have huv : dot (initCamera c).u (initCamera c).v = 0 := by
    rw [hv, dot_comm]
    exact dot_cross_right _ _
  have hvlen : (initCamera c).v.length = 1 := by
    have hls : (initCamera c).v.length_squared = 1 := by
      rw [hv, cross_length_squared,
        length_squared_of_length_eq_one hwlen,
        length_squared_of_length_eq_one hulen]
      have hwu : dot (initCamera c).w (initCamera c).u = 0 := by
        rw [dot_comm]; exact huw
      rw [hwu]
      norm_num
    rw [Vec3.length, hls, Real.sqrt_one]
  exact ⟨⟨hw, hu, hv⟩, ⟨hulen, hvlen, hwlen⟩, ⟨huv, huw, hvw⟩⟩

/-- The default configuration of camera.h: aspect 1.0, width 100, 10 samples,
depth 10, vfov 90, lookfrom (0,0,-1), lookat (0,0,0), vup (0,1,0), defocus
angle 0, focus distance 10 — except where a test needs another value. -/
def cfg5 : CameraCfg :=
  ⟨1, 100, 10, 10, 90, ⟨0, 0, 0⟩, ⟨0, 0, -1⟩, ⟨0, 1, 0⟩, 0, 10⟩

theorem c5_orthonormal_basis_witness :
    cross cfg5.vup (cfg5.lookfrom - cfg5.lookat) ≠ 0
    ∧ ((initCamera cfg5).u.length = 1 ∧ (initCamera cfg5).v.length = 1
      ∧ (initCamera cfg5).w.length = 1) := by
  have h : cross cfg5.vup (cfg5.lookfrom - cfg5.lookat) ≠ 0 := by
    simp [cfg5, cross, Vec3.eq_iff]
  exact ⟨h, (c5_orthonormal_basis cfg5 h).2.1⟩

/-- Claim C6: for positive image_width and aspect_ratio, the viewport
builder sets image_height = max(1, floor(image_width / aspect_ratio)), so
image_height ≥ 1 always holds. -/
theorem c6_image_height (c : CameraCfg) (hw : 0 < c.image_width)
    (ha : 0 < c.aspect_ratio) :
    (initCamera c).image_height = max 1 ⌊(c.image_width : ℝ) / c.aspect_ratio⌋
    ∧ 1 ≤ (initCamera c).image_height := by
  have hx : (0 : ℝ) ≤ (c.image_width : ℝ) / c.aspect_ratio := by
    apply div_nonneg _ ha.le
    exact_mod_cast hw.le
  have ht : intTrunc ((c.image_width : ℝ) / c.aspect_ratio)
      = ⌊(c.image_width : ℝ) / c.aspect_ratio⌋ := by
    rw [intTrunc, if_pos hx]
  rw [initCamera_image_height, ht]
  constructor
  · split <;> omega
  · split <;> omega

def cfg6 : CameraCfg :=
  ⟨16 / 9, 400, 10, 10, 90, ⟨0, 0, 0⟩, ⟨0, 0, -1⟩, ⟨0, 1, 0⟩, 0, 10⟩

theorem c6_image_height_witness :
    (0 < cfg6.image_width ∧ 0 < cfg6.aspect_ratio)
    ∧ (initCamera cfg6).image_height
        = max 1 ⌊(cfg6.image_width : ℝ) / cfg6.aspect_ratio⌋
    ∧ 1 ≤ (initCamera cfg6).image_height := by
  have hw : 0 < cfg6.image_width := by norm_num [cfg6]
  have ha : 0 < cfg6.aspect_ratio := by norm_num [cfg6]
  exact ⟨⟨hw, ha⟩, c6_image_height cfg6 hw ha⟩

/-! ### Claims about the ray sampler -/

/-- A small test configuration for the sampler claims: a 2-pixel-wide image. -/
def cfg7 : CameraCfg :=
  ⟨1, 2, 1, 10, 90, ⟨0, 0, 0⟩, ⟨0, 0, -1⟩, ⟨0, 1, 0⟩, 0, 1⟩

/-- A concrete derived state for exercising get_ray directly. -/
def st7 : DerivedState :=
  ⟨2, ⟨0, 0, 0⟩, ⟨-1, 1, -1⟩, ⟨1, 0, 0⟩, ⟨0, -1, 0⟩,
   ⟨1, 0, 0⟩, ⟨0, 1, 0⟩, ⟨0, 0, 1⟩, ⟨2, 0, 0⟩, ⟨0, 2, 0⟩⟩

/-- Claim C7: for every in-range pixel (i, j) and jitter draws px = -0.5+r1,
py = -0.5+r2 in [-0.5, 0.5), the sampled ray direction is pixel_sample minus
the ray origin (not normalized), with pixel_sample = pixel00_loc +
i·pixel_delta_u + j·pixel_delta_v + px·pixel_delta_u + py·pixel_delta_v. -/
theorem c7_ray_direction (c : CameraCfg) (s : DerivedState) (i j : ℤ)
    (r1 r2 : ℝ) (p : ℝ × ℝ)
    (_hi0 : 0 ≤ i) (_hi : i < c.image_width)
    (_hj0 : 0 ≤ j) (_hj : j < s.image_height)
    (hr1 : 0 ≤ r1) (hr1b : r1 < 1) (hr2 : 0 ≤ r2) (hr2b : r2 < 1) :
    (-0.5 ≤ -0.5 + r1 ∧ -0.5 + r1 < 0.5)
    ∧ (-0.5 ≤ -0.5 + r2 ∧ -0.5 + r2 < 0.5)
    ∧ (get_ray c s i j r1 r2 p).direction
        = s.pixel00_loc + (i : ℝ) • s.pixel_delta_u + (j : ℝ) • s.pixel_delta_v
          + (-0.5 + r1) • s.pixel_delta_u + (-0.5 + r2) • s.pixel_delta_v
          - (get_ray c s i j r1 r2 p).origin := by
  refine ⟨⟨by linarith, by linarith⟩, ⟨by linarith, by linarith⟩, ?_⟩
  refine Vec3.ext_components ?_ ?_ ?_ <;>
    simp only [get_ray, pixel_sample_square, add_x, add_y, add_z, sub_x,
      sub_y, sub_z, smul_x, smul_y, smul_z] <;>
    ring

theorem c7_ray_direction_witness :
    ((0 : ℤ) ≤ 0 ∧ (0 : ℤ) < cfg7.image_width
      ∧ (0 : ℤ) ≤ 1 ∧ (1 : ℤ) < st7.image_height
      ∧ (0 : ℝ) ≤ 1 / 4 ∧ (1 / 4 : ℝ) < 1 ∧ (0 : ℝ) ≤ 1 / 2 ∧ (1 / 2 : ℝ) < 1)
    ∧ ((-0.5 ≤ -0.5 + (1 / 4 : ℝ) ∧ -0.5 + (1 / 4 : ℝ) < 0.5)
      ∧ (-0.5 ≤ -0.5 + (1 / 2 : ℝ) ∧ -0.5 + (1 / 2 : ℝ) < 0.5)
      ∧ (get_ray cfg7 st7 0 1 (1 / 4) (1 / 2) (0, 0)).direction
          = st7.pixel00_loc + ((0 : ℤ) : ℝ) • st7.pixel_delta_u
            + ((1 : ℤ) : ℝ) • st7.pixel_delta_v
            + (-0.5 + (1 / 4 : ℝ)) • st7.pixel_delta_u
            + (-0.5 + (1 / 2 : ℝ)) • st7.pixel_delta_v
            - (get_ray cfg7 st7 0 1 (1 / 4) (1 / 2) (0, 0)).origin) := by
  refine ⟨⟨by norm_num, by norm_num [cfg7], by norm_num, by norm_num [st7],
           by norm_num, by norm_num, by norm_num, by norm_num⟩,
    c7_ray_direction cfg7 st7 0 1 (1 / 4) (1 / 2) (0, 0)
      (by norm_num) (by norm_num [cfg7]) (by norm_num) (by norm_num [st7])
      (by norm_num) (by norm_num) (by norm_num) (by norm_num)⟩

/-- Claim C8: when defocus_angle ≤ 0 the sampled ray origin is the camera
center exactly; when defocus_angle > 0 it is center + p.1·defocus_disk_u +
p.2·defocus_disk_v for the unit-disk draw p. -/
theorem c8_ray_origin (c : CameraCfg) (s : DerivedState) (i j : ℤ)
    (r1 r2 : ℝ) (p : ℝ × ℝ) :
    (c.defocus_angle ≤ 0 → (get_ray c s i j r1 r2 p).origin = s.center)
    ∧ (0 < c.defocus_angle →
        (get_ray c s i j r1 r2 p).origin
          = s.center + p.1 • s.defocus_disk_u + p.2 • s.defocus_disk_v) := by
  constructor
  · intro h
    show (if c.defocus_angle ≤ 0 then s.center else defocus_disk_sample s p)
        = s.center
    rw [if_pos h]
  · intro h
    show (if c.defocus_angle ≤ 0 then s.center else defocus_disk_sample s p)
        = s.center + p.1 • s.defocus_disk_u + p.2 • s.defocus_disk_v
    rw [if_neg (not_le.mpr h)]
    rfl

/-- A configuration with a positive defocus angle. -/
def cfg8 : CameraCfg :=
  ⟨1, 100, 10, 10, 90, ⟨0, 0, 0⟩, ⟨0, 0, -1⟩, ⟨0, 1, 0⟩, 10, 10⟩

theorem c8_ray_origin_witness :
    (cfg5.defocus_angle ≤ 0
      ∧ (get_ray cfg5 st7 0 0 0 0 (0.5, 0.25)).origin = st7.center)
    ∧ (0 < cfg8.defocus_angle
      ∧ (get_ray cfg8 st7 0 0 0 0 (0.5, 0.25)).origin
          = st7.center + ((0.5, 0.25) : ℝ × ℝ).1 • st7.defocus_disk_u
            + ((0.5, 0.25) : ℝ × ℝ).2 • st7.defocus_disk_v) := by
  refine ⟨⟨by norm_num [cfg5],
      (c8_ray_origin cfg5 st7 0 0 0 0 (0.5, 0.25)).1 (by norm_num [cfg5])⟩,
    ⟨by norm_num [cfg8],
      (c8_ray_origin cfg8 st7 0 0 0 0 (0.5, 0.25)).2 (by norm_num [cfg8])⟩⟩

/-! ### Claim C10: the derived camera center -/

/-- The viewport height computed inside the viewport builder. -/
def viewport_height_of (c : CameraCfg) : ℝ :=
  2 * Real.tan (degrees_to_radians c.vfov / 2) * c.focus_dist

/-- The viewport width computed inside the viewport builder. -/
def viewport_width_of (c : CameraCfg) : ℝ :=
  viewport_height_of c * ((c.image_width : ℝ) / ((initCamera c).image_height : ℝ))

/-- The horizontal viewport edge vector. -/
def viewport_u_of (c : CameraCfg) : Vec3 :=
  viewport_width_of c • (initCamera c).u

/-- The vertical viewport edge vector (negated, pointing down the image). -/
def viewport_v_of (c : CameraCfg) : Vec3 :=
  viewport_height_of c • (-(initCamera c).v)

/-- Claim C10: the derived camera center equals the configured lookfrom
point exactly; consequently every pinhole ray (defocus_angle ≤ 0)
originates at lookfrom, and the center term of the viewport_upper_left
formula is lookfrom. -/
theorem c10_center_is_lookfrom (c : CameraCfg) :
    (initCamera c).center = c.lookfrom
    ∧ (∀ (i j : ℤ) (r1 r2 : ℝ) (p : ℝ × ℝ), c.defocus_angle ≤ 0 →
        (get_ray c (initCamera c) i j r1 r2 p).origin = c.lookfrom)
    ∧ (initCamera c).pixel00_loc
        = c.lookfrom - c.focus_dist • (initCamera c).w
          - (1 / 2 : ℝ) • viewport_u_of c - (1 / 2 : ℝ) • viewport_v_of c
          + (0.5 : ℝ) • ((initCamera c).pixel_delta_u + (initCamera c).pixel_delta_v) := by
  refine ⟨initCamera_center c, ?_, ?_⟩
  · intro i j r1 r2 p h
    show (if c.defocus_angle ≤ 0 then (initCamera c).center
          else defocus_disk_sample (initCamera c) p) = c.lookfrom
    rw [if_pos h, initCamera_center]
  · rfl

theorem c10_center_is_lookfrom_witness :
    (initCamera cfg5).center = cfg5.lookfrom
    ∧ (cfg5.defocus_angle ≤ 0
      ∧ (get_ray cfg5 (initCamera cfg5) 0 0 0 0 (0, 0)).origin = cfg5.lookfrom) :=
  ⟨(c10_center_is_lookfrom cfg5).1,
   by norm_num [cfg5],
   (c10_center_is_lookfrom cfg5).2.1 0 0 0 0 (0, 0) (by norm_num [cfg5])⟩

end

end PathTracer
